import Mathlib

/-
Verification of the LO compiler core (src/parser.rs) against its
specification.  The data model and the operations below are shallow
embeddings of the Rust source: token-stream plumbing and source
locations are abstracted away, expression types that the Rust code
obtains through `LoInstr::get_type` (defined in ir.rs, which is not
part of the sources under review) are passed in as explicit arguments,
and the helpers from ir.rs (`emit_components`,
`emit_sized_component_stats`, `get_default_value`, `to_wasm_type`)
are modelled from the specification, as noted on each of them.
Error values are strings; interpolated fragments whose Display
implementations live outside the reviewed sources are omitted from
the message texts, constant message parts are kept verbatim.
-/

/-- WebAssembly primitive value types (spec section 3, "Component"). -/
inductive WasmType where
  | I32 | I64 | F32 | F64
deriving DecidableEq

/-- Source-language types, from the LoType enum of the data model
(spec section 3). -/
inductive LoType where
  | Never | Void | Bool | I8 | U8 | I16 | U16 | I32 | U32 | I64 | U64 | F32 | F64
  | Pointer (pointee : LoType)
  | Tuple (items : List LoType)
  | StructInstance (name : String)
  | Result (ok_type : LoType) (err_type : LoType)
  | MacroTypeArg (name : String)

mutual

/-- Structural equality test on LoType trees (the Rust code derives
PartialEq); spelled out because the nested List field prevents the
automatic derivation. -/
def loBeq : LoType → LoType → Bool
  | .Never, .Never => true
  | .Void, .Void => true
  | .Bool, .Bool => true
  | .I8, .I8 => true
  | .U8, .U8 => true
  | .I16, .I16 => true
  | .U16, .U16 => true
  | .I32, .I32 => true
  | .U32, .U32 => true
  | .I64, .I64 => true
  | .U64, .U64 => true
  | .F32, .F32 => true
  | .F64, .F64 => true
  | .Pointer a, .Pointer b => loBeq a b
  | .Tuple as_, .Tuple bs => loBeqList as_ bs
  | .StructInstance a, .StructInstance b => a == b
  | .Result a b, .Result c d => loBeq a c && loBeq b d
  | .MacroTypeArg a, .MacroTypeArg b => a == b
  | _, _ => false

/-- Pointwise loBeq on lists of types. -/
def loBeqList : List LoType → List LoType → Bool
  | [], [] => true
  | a :: as_, b :: bs => loBeq a b && loBeqList as_ bs
  | _, _ => false

end

set_option maxHeartbeats 2000000 in
theorem loBeq_iff_eq : ∀ a b : LoType, loBeq a b = true ↔ a = b := by
  apply loBeq.induct (fun a b => loBeq a b = true ↔ a = b)
    (fun as_ bs => loBeqList as_ bs = true ↔ as_ = bs)
  · simp [loBeq]
  · simp [loBeq]
  · simp [loBeq]
  · simp [loBeq]
  · simp [loBeq]
  · simp [loBeq]
  · simp [loBeq]
  · simp [loBeq]
  · simp [loBeq]
  · simp [loBeq]
  · simp [loBeq]
  · simp [loBeq]
  · simp [loBeq]
  · intro a b ih; simp [loBeq, ih]
  · intro as_ bs ih; simp [loBeq, ih]
  · intro a b; simp [loBeq]
  · intro a b c d ih1 ih2; simp [loBeq, ih1, ih2]
  · intro a b; simp [loBeq]
  · intro t x h1 h2 h3 h4 h5 h6 h7 h8 h9 h10 h11 h12 h13 h14 h15 h16 h17 h18
    cases t <;> cases x <;>
      first
      | (solve | simp [loBeq])
      | (exfalso; solve_by_elim)
  · simp [loBeqList]
  · intro a as_ b bs ih1 ih2; simp [loBeqList, ih1, ih2]
  · intro t x h1 h2
    cases t <;> cases x <;>
      first
      | (solve | simp [loBeqList])
      | (exfalso; solve_by_elim)

instance loTypeDecEq : DecidableEq LoType := fun a b =>
  decidable_of_iff (loBeq a b = true) (loBeq_iff_eq a b)

/-- WebAssembly binary operators selected by `get_binary_op`. -/
inductive WasmBinaryOpKind where
  | I32_EQ | I32_NE | I32_LT_S | I32_LT_U | I32_GT_S | I32_GT_U
  | I32_LE_S | I32_LE_U | I32_GE_S | I32_GE_U
  | I32_ADD | I32_SUB | I32_MUL | I32_DIV_S | I32_DIV_U | I32_REM_S | I32_REM_U
  | I32_AND | I32_OR
  | I64_EQ | I64_NE | I64_LT_S | I64_LT_U | I64_GT_S | I64_GT_U
  | I64_LE_S | I64_LE_U | I64_GE_S | I64_GE_U
  | I64_ADD | I64_SUB | I64_MUL | I64_DIV_S | I64_DIV_U | I64_REM_S | I64_REM_U
  | I64_AND | I64_OR
  | F32_EQ | F32_NE | F32_LT | F32_GT | F32_LE | F32_GE
  | F32_ADD | F32_SUB | F32_MUL | F32_DIV
  | F64_EQ | F64_NE | F64_LT | F64_GT | F64_LE | F64_GE
  | F64_ADD | F64_SUB | F64_MUL | F64_DIV
deriving DecidableEq

/-- WebAssembly store kinds, as produced by
`WasmStoreKind::from_load_kind`. -/
inductive WasmStoreKind where
  | I32 | I64 | F32 | F64 | I32_8 | I32_16 | I64_8 | I64_16 | I64_32
deriving DecidableEq

mutual

/-- Typed IR expressions (the LoInstr enum of the data model,
spec section 3). -/
inductive LoInstr where
  | U32Const (value : Nat)
  | U64Const (value : Nat)
  | I64Const (value : Int)
  | U32ConstLazy
  | LocalGet (local_index : Nat) (value_type : LoType)
  | UntypedLocalGet (local_index : Nat)
  | GlobalGet (global_index : Nat)
  | Set (bind : LoSetBind)
  | Load (kind : LoType) (align : Nat) (offset : Nat) (address_instr : LoInstr)
  | StructGet (struct_name : String) (base_index : Nat)
      (primitive_gets : List LoInstr)
  | StructLoad (struct_name : String) (address_instr : LoInstr)
      (address_local_index : Nat) (base_byte_offset : Nat)
      (primitive_loads : List LoInstr)
  | Call (fn_index : Nat) (args : List LoInstr) (return_type : LoType)
  | BinaryOp (kind : WasmBinaryOpKind) (lhs : LoInstr) (rhs : LoInstr)
  | If (block_type : LoType) (cond : LoInstr)
      (then_branch : List LoInstr) (else_branch : Option (List LoInstr))
  | Block (block_type : LoType) (body : List LoInstr)
  | Loop (block_type : LoType) (body : List LoInstr)
  | Branch (label_index : Nat)
  | Return (value : LoInstr)
  | Drop (value : LoInstr) (drop_count : Nat)
  | MultiValueEmit (values : List LoInstr)
  | Casted (expr : LoInstr) (target_type : LoType)
  | MemorySize
  | MemoryGrow (size : LoInstr)
  | I64FromI32Signed (expr : LoInstr)
  | I64FromI32Unsigned (expr : LoInstr)
  | I32FromI64 (expr : LoInstr)
  | NoInstr
  | Unreachable

/-- Assignment targets produced by `compile_set_binds`. -/
inductive LoSetBind where
  | Local (index : Nat)
  | Global (index : Nat)
  | Memory (align : Nat) (offset : Nat) (kind : WasmStoreKind)
      (address_instr : LoInstr) (value_local_index : Nat)

end

/-- Wrapper mirroring `LoInstr::casted`: overlays a logical type on an
instruction without changing its emitted bytes. -/
def LoInstr.casted (i : LoInstr) (t : LoType) : LoInstr := .Casted i t

/-- Struct fields as recorded in `struct_defs` (name, type, component
index, packed byte offset). -/
structure StructField where
  name : String
  value_type : LoType
  field_index : Nat
  byte_offset : Nat
deriving DecidableEq

/-- Struct definitions: ordered fields plus the fully_defined flag that
is flipped when the closing delimiter is consumed. -/
structure StructDef where
  fields : List StructField
  fully_defined : Bool
deriving DecidableEq

/-- Component/byte statistics returned by
`emit_sized_component_stats`. -/
structure EmitComponentStats where
  count : Nat
  byte_length : Nat
deriving DecidableEq

/-- Struct definitions of the module context, keyed by struct name. -/
abbrev StructDefs := List (String × StructDef)

/-- Modelled from the spec: `emit_components(type)` from ir.rs, which
is not under the reviewed sources.  Decomposes a type into its
WebAssembly component sequence in layout order: sub-32-bit integers,
Bool and pointers project to I32, tuples / struct instances / Result
concatenate their parts, Void and Never produce nothing, MacroTypeArg
is illegal outside a macro scope (modelled as failure).  The fuel
argument bounds recursion through struct definitions; every recursive
call consumes one unit, so any finite type is handled by a large
enough fuel. -/
def emit_components (ctx : StructDefs) (fuel : Nat) (t : LoType) :
    Option (List WasmType) :=
  match fuel with
  | 0 => none
  | fuel + 1 =>
    match t with
    | .Never => some []
    | .Void => some []
    | .Bool => some [.I32]
    | .I8 => some [.I32]
    | .U8 => some [.I32]
    | .I16 => some [.I32]
    | .U16 => some [.I32]
    | .I32 => some [.I32]
    | .U32 => some [.I32]
    | .I64 => some [.I64]
    | .U64 => some [.I64]
    | .F32 => some [.F32]
    | .F64 => some [.F64]
    | .Pointer _ => some [.I32]
    | .Tuple items =>
        items.foldr
          (fun t' acc => do pure ((← emit_components ctx fuel t') ++ (← acc)))
          (some [])
    | .Result okT errT => do
        pure ((← emit_components ctx fuel okT) ++ (← emit_components ctx fuel errT))
    | .StructInstance name =>
        match ctx.lookup name with
        | none => none
        | some sd =>
            (sd.fields.map (fun f => f.value_type)).foldr
              (fun t' acc => do pure ((← emit_components ctx fuel t') ++ (← acc)))
              (some [])
    | .MacroTypeArg _ => none

/-- Modelled from the spec: `emit_sized_component_stats` from ir.rs,
which is not under the reviewed sources.  Reports the component count
together with the packed byte length (no alignment padding): one byte
for Bool/I8/U8, two for I16/U16, four for I32/U32/F32 and pointers,
eight for I64/U64/F64; aggregates sum their parts.  Fuel as in
emit_components. -/
def emit_sized_component_stats (ctx : StructDefs) (fuel : Nat) (t : LoType) :
    Option EmitComponentStats :=
  match fuel with
  | 0 => none
  | fuel + 1 =>
    match t with
    | .Never => some ⟨0, 0⟩
    | .Void => some ⟨0, 0⟩
    | .Bool => some ⟨1, 1⟩
    | .I8 => some ⟨1, 1⟩
    | .U8 => some ⟨1, 1⟩
    | .I16 => some ⟨1, 2⟩
    | .U16 => some ⟨1, 2⟩
    | .I32 => some ⟨1, 4⟩
    | .U32 => some ⟨1, 4⟩
    | .F32 => some ⟨1, 4⟩
    | .I64 => some ⟨1, 8⟩
    | .U64 => some ⟨1, 8⟩
    | .F64 => some ⟨1, 8⟩
    | .Pointer _ => some ⟨1, 4⟩
    | .Tuple items =>
        items.foldr
          (fun t' acc => do
            let a ← emit_sized_component_stats ctx fuel t'
            let b ← acc
            pure ⟨a.count + b.count, a.byte_length + b.byte_length⟩)
          (some ⟨0, 0⟩)
    | .Result okT errT => do
        let a ← emit_sized_component_stats ctx fuel okT
        let b ← emit_sized_component_stats ctx fuel errT
        pure ⟨a.count + b.count, a.byte_length + b.byte_length⟩
    | .StructInstance name =>
        match ctx.lookup name with
        | none => none
        | some sd =>
            (sd.fields.map (fun f => f.value_type)).foldr
              (fun t' acc => do
                let a ← emit_sized_component_stats ctx fuel t'
                let b ← acc
                pure ⟨a.count + b.count, a.byte_length + b.byte_length⟩)
              (some ⟨0, 0⟩)
    | .MacroTypeArg _ => none

mutual

/-- Modelled from the spec: `get_default_value` from ir.rs, which is
not under the reviewed sources — the `default(T)` value emitted for a
type: zero constants for the scalar types, the concatenation of the
member defaults for aggregates, nothing for Void and Never.  The
claims below treat this function as a black box. -/
def get_default_value : LoType → LoInstr
  | .Never => .NoInstr
  | .Void => .NoInstr
  | .Bool => .U32Const 0
  | .I8 => .U32Const 0
  | .U8 => .U32Const 0
  | .I16 => .U32Const 0
  | .U16 => .U32Const 0
  | .I32 => .U32Const 0
  | .U32 => .U32Const 0
  | .I64 => .I64Const 0
  | .U64 => .U64Const 0
  | .F32 => .U32Const 0
  | .F64 => .U64Const 0
  | .Pointer _ => .U32Const 0
  | .Tuple items => (LoInstr.MultiValueEmit (get_default_list items)).casted (.Tuple items)
  | .StructInstance name =>
      (LoInstr.MultiValueEmit []).casted (.StructInstance name)
  | .Result okT errT =>
      (LoInstr.MultiValueEmit [get_default_value okT, get_default_value errT]).casted
        (.Result okT errT)
  | .MacroTypeArg name => (LoInstr.MultiValueEmit []).casted (.MacroTypeArg name)

/-- Defaults of a list of types, in order. -/
def get_default_list : List LoType → List LoInstr
  | [] => []
  | t :: ts => get_default_value t :: get_default_list ts

end

example : emit_components [] 1 .I32 = some [.I32] := by decide
example : emit_components [] 2 (.Result .Void .I32) = some [.I32] := by decide
example : emit_sized_component_stats [] 2 (.Tuple [.I8, .I64]) = some ⟨2, 9⟩ := by decide
example : get_default_value .I64 = .I64Const 0 := by rfl

/-- Deferred expressions of the enclosing function, in registration
order, as accumulated on `fn_ctx.defers`; `get_deferred` mirrors the
source helper: nothing when the stack is empty, otherwise the stack in
reverse registration order. -/
def get_deferred (defers : List LoInstr) : Option (List LoInstr) :=
  if defers.length = 0 then none else some defers.reverse

/-- Embedding of the `return` branch of parse_primary
(src/parser.rs).  `output` is the enclosing function declared output
type, `defers` the registered defer stack, `value` the parsed returned
expression and `valueType` its type (computed through
`LoInstr::get_type` in ir.rs, which is not under the reviewed sources,
hence passed in). -/
def parse_return (output : LoType) (defers : List LoInstr)
    (value : LoInstr) (valueType : LoType) : Except String LoInstr :=
  let expected_and_err : LoType × Option LoType :=
    match output with
    | .Result okT errT => (okT, some errT)
    | t => (t, none)
  if valueType ≠ expected_and_err.1 then
    .error "TypeError: Invalid return type"
  else
    let return_value : LoInstr :=
      match expected_and_err.2 with
      | some errT => .MultiValueEmit [value, get_default_value errT]
      | none => value
    let return_value : LoInstr :=
      match get_deferred defers with
      | some values => (LoInstr.MultiValueEmit (return_value :: values)).casted .Void
      | none => return_value
    .ok (.Return return_value)

/-- Embedding of the `throw` branch of parse_primary
(src/parser.rs); arguments as in parse_return, with `error_value` the
thrown expression and `errorType` its type. -/
def parse_throw (output : LoType) (defers : List LoInstr)
    (error_value : LoInstr) (errorType : LoType) : Except String LoInstr :=
  match output with
  | .Result okT errT =>
      if errorType ≠ errT then
        .error "TypeError: Invalid throw type"
      else
        let return_value : LoInstr :=
          .MultiValueEmit [get_default_value okT, error_value]
        let return_value : LoInstr :=
          match get_deferred defers with
          | some values => (LoInstr.MultiValueEmit (return_value :: values)).casted .Void
          | none => return_value
        .ok (.Return return_value)
  | _ => .error "TypeError: Cannot throw, function can only return its output type"

/-- Result of parse_block_contents: the lowered expressions plus the
never/return flags used by finalize. -/
structure BlockContents where
  exprs : List LoInstr
  has_never : Bool
  has_return : Bool

/-- Embedding of the return-path check that `finalize`
(src/parser.rs, the fn_bodies loop) performs on a parsed function
body: when the block has neither a terminating return nor a
Never-typed expression, deferred expressions are appended and the
declared output decides whether the body is accepted as is (Void),
patched with a default error value (Result with Void ok type), or
rejected. -/
def finalize_fn_body (output : LoType) (contents : BlockContents)
    (defers : List LoInstr) : Except String (List LoInstr) :=
  if !contents.has_return && !contents.has_never then
    let exprs :=
      match get_deferred defers with
      | some values => contents.exprs ++ values
      | none => contents.exprs
    match output with
    | .Void => .ok exprs
    | .Result okT errT =>
        if okT = .Void then .ok (exprs ++ [get_default_value errT])
        else .error "Missing return expression"
    | .Never => .error "This function terminates but is marked as `never`"
    | _ => .error "Missing return expression"
  else
    .ok contents.exprs

/-- True exactly on Return instructions (the `if let LoInstr::Return`
test in parse_block_contents). -/
def is_return_instr : LoInstr → Bool
  | .Return _ => true
  | _ => false

/-- Embedding of the main loop of parse_block_contents
(src/parser.rs).  The token stream and parse_expr are abstracted: the
block body arrives as the list of parsed expressions paired with their
types.  `resolved_type` and `contents` are the loop accumulators,
`expected_type` the block expected type. -/
def parse_block_exprs (expected_type : LoType) :
    List (LoInstr × LoType) → LoType → BlockContents → Except String BlockContents
  | [], resolved_type, contents =>
      if !contents.has_never && resolved_type ≠ expected_type then
        .error "Block resolved to a type other than expected"
      else if !contents.has_return && contents.has_never then
        .ok { contents with exprs := contents.exprs ++ [.Unreachable] }
      else
        .ok contents
  | (expr, expr_type) :: rest, resolved_type, contents =>
      if expr_type = .Never then
        parse_block_exprs expected_type rest resolved_type
          { contents with
              exprs := contents.exprs ++ [expr]
              has_never := true
              has_return := contents.has_return || is_return_instr expr }
      else if expr_type ≠ .Void then
        if expr_type ≠ expected_type then
          .error "Expression resolved to a type other than the block expected"
        else if resolved_type ≠ .Void then
          .error "Multiple non-void expressions in the block are not supported"
        else
          parse_block_exprs expected_type rest expr_type
            { contents with exprs := contents.exprs ++ [expr] }
      else
        parse_block_exprs expected_type rest resolved_type
          { contents with exprs := contents.exprs ++ [expr] }

/-- Block kinds carried by the expression-parser block chain. -/
inductive BlockType where
  | Block | Function | Loop | ForLoop
deriving DecidableEq

/-- Embedding of the label-index walk of the `break` branch of
parse_primary: the block chain is listed innermost first; the walk
starts at 1 (0 = loop, 1 = loop wrapper block), stops on a Loop block,
adds one extra level for a ForLoop block, and otherwise steps to the
parent adding one.  Running out of parents is a failure (the source
unwraps). -/
def parse_break_label : List BlockType → Nat → Option Nat
  | [], _ => none
  | .Loop :: _, label_index => some label_index
  | .ForLoop :: _, label_index => some (label_index + 1)
  | _ :: rest, label_index => parse_break_label rest (label_index + 1)

/-- The `break` branch of parse_primary: a Branch with the computed
label index. -/
def parse_break (chain : List BlockType) : Option LoInstr :=
  (parse_break_label chain 1).map (fun i => .Branch i)

/-- Embedding of the label-index walk of the `continue` branch of
parse_primary: as for break but starting at 0 and stopping on either
loop kind without adjustment. -/
def parse_continue_label : List BlockType → Nat → Option Nat
  | [], _ => none
  | .Loop :: _, label_index => some label_index
  | .ForLoop :: _, label_index => some label_index
  | _ :: rest, label_index => parse_continue_label rest (label_index + 1)

/-- The `continue` branch of parse_primary: a Branch with the computed
label index. -/
def parse_continue (chain : List BlockType) : Option LoInstr :=
  (parse_continue_label chain 0).map (fun i => .Branch i)

/-- Embedding of the `loop` branch of parse_primary: the parsed body
gets an implicit continue (Branch 0) appended and the resulting
WebAssembly loop is wrapped in a block. -/
def parse_loop_expr (body : List LoInstr) : LoInstr :=
  .Block .Void [.Loop .Void (body ++ [.Branch 0])]

/-- Conversion of a u32 value to the i32 stored in an I32Const
(twos-complement reinterpretation performed by `as i32` in the
source). -/
def u32_to_i32 (n : Nat) : Int :=
  if n < 2 ^ 31 then (n : Int) else (n : Int) - 2 ^ 32

/-- One WebAssembly active data segment as pushed on
`wasm_module.datas`: the I32Const offset expression and the raw
bytes. -/
structure WasmData where
  offset : Int
  bytes : List Nat
deriving DecidableEq

/-- The string-pool related slice of the module context: the
`string_pool` map from string contents (as byte lists — the lexer is
external) to data-segment offsets, the `data_size` cursor read by
`__DATA_SIZE__`, and the data segments of the module under
construction. -/
structure MState where
  string_pool : List (List Nat × Nat)
  data_size : Nat
  datas : List WasmData
deriving DecidableEq

/-- Embedding of build_const_str_instr (src/parser.rs): looks the
string up in the pool; on a miss it registers the string at the
current data_size, advances data_size by the byte length and appends
an active data segment; either way it returns the (pointer, length)
pair cast to the `str` struct. -/
def build_const_str_instr (st : MState) (value : List Nat) : LoInstr × MState :=
  let string_len := value.length
  match st.string_pool.lookup value with
  | some string_ptr =>
      ((LoInstr.MultiValueEmit
          [.U32Const string_ptr, .U32Const string_len]).casted
            (.StructInstance "str"),
        st)
  | none =>
      let new_string_ptr := st.data_size
      let st' : MState :=
        { string_pool := (value, new_string_ptr) :: st.string_pool
          data_size := st.data_size + string_len
          datas := st.datas ++ [⟨u32_to_i32 new_string_ptr, value⟩] }
      ((LoInstr.MultiValueEmit
          [.U32Const new_string_ptr, .U32Const string_len]).casted
            (.StructInstance "str"),
        st')

/-- Embedding of the `memory @OFFSET = "BYTES"` branch of parse_memory
(src/parser.rs): appends an active data segment at the given offset;
the pool and the data_size cursor are untouched. -/
def parse_memory_data (st : MState) (offset : Nat) (data : List Nat) : MState :=
  { st with datas := st.datas ++ [⟨u32_to_i32 offset, data⟩] }

/-- The two operations of the compiler that append data segments
during compilation. -/
inductive DataOp where
  | constStr (value : List Nat)
  | memSeg (offset : Nat) (bytes : List Nat)
deriving DecidableEq

/-- Applies one data-segment producing operation to the module
context. -/
def apply_data_op (st : MState) : DataOp → MState
  | .constStr v => (build_const_str_instr st v).2
  | .memSeg off bytes => parse_memory_data st off bytes

/-- Applies a compilation history of data-segment producing operations
in order. -/
def apply_data_ops (st : MState) (ops : List DataOp) : MState :=
  ops.foldl apply_data_op st

/-- Total byte length of all data segments appended to the module so
far. -/
def total_data_bytes (st : MState) : Nat :=
  (st.datas.map (fun d => d.bytes.length)).sum

/-- Total byte length contributed by explicit `memory @OFFSET`
segments in a history. -/
def mem_seg_bytes (ops : List DataOp) : Nat :=
  (ops.map (fun op =>
    match op with
    | .memSeg _ bytes => bytes.length
    | .constStr _ => 0)).sum

/-- The module context at compiler start: empty pool, zero cursor, no
segments. -/
def init_mstate : MState := ⟨[], 0, []⟩

/-- The module context as seen by parse_file: the included_modules map
plus the remainder of the context, abstracted by a type parameter
(parse_file consults and threads it unchanged on the early-return
path). -/
structure ModuleCtx (ρ : Type) where
  included_modules : List (String × Nat)
  rest : ρ

/-- Embedding of parse_file (src/parser.rs).  `resolve` models
resolve_path from the external utils module; `read_file` models
fd_open / fd_read_all_and_close (returning an error code on failure);
`parse_contents` stands for parse_file_contents, which performs the
UTF-8 check, lexing, index assignment, insertion into
included_modules and top-level parsing — it is passed as a parameter
because this claim concerns only the re-entry guard that runs before
any of it. -/
def parse_file {ρ : Type}
    (resolve : String → String → String)
    (read_file : String → Except Nat (List Nat))
    (parse_contents : ModuleCtx ρ → String → List Nat → Except String (Nat × ModuleCtx ρ))
    (ctx : ModuleCtx ρ) (file_path : String) (loc_file_name : String) :
    Except String (Option Nat × ModuleCtx ρ) :=
  let file_path := resolve file_path loc_file_name
  if (ctx.included_modules.lookup file_path).isSome then
    .ok (none, ctx)
  else
    match read_file file_path with
    | .error err => .error ("Cannot load file " ++ file_path ++ ": error code " ++ toString err)
    | .ok file_contents =>
        match parse_contents ctx file_path file_contents with
        | .error e => .error e
        | .ok (file_index, ctx') => .ok (some file_index, ctx')

/-- Local slots as recorded in the block scope (`LocalDef`). -/
structure LocalDef where
  index : Nat
  value_type : LoType
deriving DecidableEq

/-- Global definitions of the module context (`GlobalDef`); the
initializer expression is kept for the finalize re-lowering. -/
structure GlobalDef where
  index : Nat
  mutable : Bool
  value_type : LoType
  value : LoInstr

/-- The function-level compilation state (`FnContext`): the next free
local slot and the accumulated non-argument WebAssembly locals (defers
are threaded separately by the embeddings that need them). -/
structure FnCtxState where
  locals_last_index : Nat
  non_arg_wasm_locals : List WasmType
deriving DecidableEq

/-- The named locals of the current block (`Block.locals`; the source
uses a BTreeMap, modelled as an association list). -/
structure BlockScope where
  locals : List (String × LocalDef)
deriving DecidableEq

/-- Modelled from the spec: `LoType::to_wasm_type` from ir.rs, which
is not under the reviewed sources — the single WebAssembly value type
backing a one-component LoType, if any. -/
def to_wasm_type : LoType → Option WasmType
  | .Bool => some .I32
  | .I8 => some .I32
  | .U8 => some .I32
  | .I16 => some .I32
  | .U16 => some .I32
  | .I32 => some .I32
  | .U32 => some .I32
  | .Pointer _ => some .I32
  | .I64 => some .I64
  | .U64 => some .I64
  | .F32 => some .F32
  | .F64 => some .F64
  | _ => none

/-- Modelled from the spec: the store kind chosen through
`to_load_kind` / `WasmStoreKind::from_load_kind` (ir.rs / wasm.rs, not
under the reviewed sources). -/
def wasm_store_kind : LoType → Option WasmStoreKind
  | .Bool => some .I32_8
  | .I8 => some .I32_8
  | .U8 => some .I32_8
  | .I16 => some .I32_16
  | .U16 => some .I32_16
  | .I32 => some .I32
  | .U32 => some .I32
  | .Pointer _ => some .I32
  | .I64 => some .I64
  | .U64 => some .I64
  | .F32 => some .F32
  | .F64 => some .F64
  | _ => none

mutual

/-- Embedding of compile_set_binds (src/parser.rs): inverts a "get"
pattern into a sequence of Set binds, spilling a load address into a
fresh synthetic local; returns the produced instructions together with
the updated function state. -/
def compile_set_binds (fn_state : FnCtxState) (bind_instr : LoInstr)
    (address_index : Option Nat) : Except String (List LoInstr × FnCtxState) :=
  match bind_instr with
  | .LocalGet local_index _ => .ok ([.Set (.Local local_index)], fn_state)
  | .UntypedLocalGet local_index => .ok ([.Set (.Local local_index)], fn_state)
  | .GlobalGet global_index => .ok ([.Set (.Global global_index)], fn_state)
  | .Load kind align offset address_instr =>
      match to_wasm_type kind, wasm_store_kind kind with
      | some wt, some sk =>
          let value_local_index := fn_state.locals_last_index
          let fn_state :=
            { locals_last_index := fn_state.locals_last_index + 1
              non_arg_wasm_locals := fn_state.non_arg_wasm_locals ++ [wt] }
          let address_instr :=
            match address_index with
            | some local_index => LoInstr.UntypedLocalGet local_index
            | none => address_instr
          .ok ([.Set (.Memory align offset sk address_instr value_local_index)], fn_state)
      | _, _ => .error "unreachable: load kind has no wasm type"
  | .StructLoad _ address_instr address_local_index _ primitive_loads => do
      let (values, fn_state) ←
        compile_set_binds_list fn_state primitive_loads (some address_local_index)
      let values := values ++ [.Set (.Local address_local_index), address_instr]
      .ok ([LoInstr.MultiValueEmit values.reverse], fn_state)
  | .StructGet _ _ primitive_gets =>
      compile_set_binds_list fn_state primitive_gets address_index
  | .MultiValueEmit values =>
      compile_set_binds_list fn_state values address_index
  | .Casted expr _ => compile_set_binds fn_state expr address_index
  | _ => .error "Invalid left-hand side in assignment"

/-- compile_set_binds over a list of binds, concatenating the output
in order (the source appends into one output vector). -/
def compile_set_binds_list (fn_state : FnCtxState) (binds : List LoInstr)
    (address_index : Option Nat) : Except String (List LoInstr × FnCtxState) :=
  match binds with
  | [] => .ok ([], fn_state)
  | bind :: rest => do
      let (out1, fn_state) ← compile_set_binds fn_state bind address_index
      let (out2, fn_state) ← compile_set_binds_list fn_state rest address_index
      .ok (out1 ++ out2, fn_state)

end

/-- Embedding of compile_set (src/parser.rs): binds in reverse order
followed by (preceded on the stack by) the value, as a Void-typed
MultiValueEmit. -/
def compile_set (fn_state : FnCtxState) (value_instr bind_instr : LoInstr) :
    Except String (LoInstr × FnCtxState) := do
  let (values, fn_state) ← compile_set_binds fn_state bind_instr none
  let values := values ++ [value_instr]
  .ok ((LoInstr.MultiValueEmit values.reverse).casted .Void, fn_state)

/-- Embedding of define_local (src/parser.rs): rejects a duplicate in
the current block scope, allocates the next local slots (one per
WebAssembly component of the declared type, appended to the
non-argument locals), records the local and compiles the initial
assignment.  The struct context and fuel feed the modelled
emit_components. -/
def define_local (sctx : StructDefs) (fuel : Nat)
    (blk : BlockScope) (fn_state : FnCtxState)
    (local_name : String) (value : LoInstr) (value_type : LoType) :
    Except String (LoInstr × BlockScope × FnCtxState) :=
  if (blk.locals.lookup local_name).isSome then
    .error ("Duplicate local definition: " ++ local_name)
  else
    match emit_components sctx fuel value_type with
    | none => .error "unreachable: emit_components failed"
    | some comps =>
        let local_index := fn_state.locals_last_index
        let comp_count := comps.length
        let fn_state : FnCtxState :=
          { locals_last_index := fn_state.locals_last_index + comp_count
            non_arg_wasm_locals := fn_state.non_arg_wasm_locals ++ comps }
        let blk : BlockScope :=
          { locals := (local_name, ⟨local_index, value_type⟩) :: blk.locals }
        let values :=
          (List.range comp_count).map
            (fun i => LoInstr.UntypedLocalGet (local_index + i))
        let bind_instr := LoInstr.MultiValueEmit values
        match compile_set fn_state value bind_instr with
        | .error e => .error e
        | .ok (set_instr, fn_state) => .ok (set_instr, blk, fn_state)

/-- Embedding of the `let` branch of parse_primary (src/parser.rs):
the name `_` drops the value (one drop per component), any other name
is first checked against the globals map and only then defined as a
local. -/
def parse_let (sctx : StructDefs) (fuel : Nat)
    (globals : List (String × GlobalDef))
    (blk : BlockScope) (fn_state : FnCtxState)
    (local_name : String) (value : LoInstr) (value_type : LoType) :
    Except String (LoInstr × BlockScope × FnCtxState) :=
  if local_name = "_" then
    match emit_components sctx fuel value_type with
    | none => .error "unreachable: emit_components failed"
    | some comps => .ok (.Drop value comps.length, blk, fn_state)
  else if (globals.lookup local_name).isSome then
    .error ("Local name collides with global: " ++ local_name)
  else
    define_local sctx fuel blk fn_state local_name value value_type

/-- True exactly on Except.ok results. -/
def except_ok {ε α : Type} : Except ε α → Bool
  | .ok _ => true
  | .error _ => false

/-- Embedding of the `as` cast handling of parse_postfix
(InfixOpTag::Cast, src/parser.rs): the source if-chain over the
wanted and actual types, falling back to the comparison of the
emit_components sequences.  `primary` is the casted expression,
`actual_type` its type, `wanted_type` the parsed target type. -/
def parse_cast (sctx : StructDefs) (fuel : Nat) (primary : LoInstr)
    (actual_type wanted_type : LoType) : Except String LoInstr :=
  if (wanted_type = .Bool ∨ wanted_type = .I8 ∨ wanted_type = .U8) ∧
      (actual_type = .I32 ∨ actual_type = .U32 ∨ actual_type = .I64 ∨ actual_type = .U64) then
    .ok (primary.casted wanted_type)
  else if wanted_type = .I64 ∧ actual_type = .I32 then
    .ok (.I64FromI32Signed primary)
  else if wanted_type = .I64 ∧ actual_type = .U32 then
    .ok (.I64FromI32Unsigned primary)
  else if wanted_type = .U64 ∧ actual_type = .I32 then
    .ok ((LoInstr.I64FromI32Signed primary).casted wanted_type)
  else if wanted_type = .U64 ∧ actual_type = .U32 then
    .ok ((LoInstr.I64FromI32Unsigned primary).casted wanted_type)
  else if wanted_type = .I32 ∧ (actual_type = .I64 ∨ actual_type = .U64) then
    .ok (.I32FromI64 primary)
  else if wanted_type = .U32 ∧ (actual_type = .I64 ∨ actual_type = .U64) then
    .ok ((LoInstr.I32FromI64 primary).casted wanted_type)
  else if emit_components sctx fuel actual_type = emit_components sctx fuel wanted_type then
    .ok (primary.casted wanted_type)
  else
    .error "cast between types with differing component sequences"

/-- The integer types of the source language, in the sense of the
claim phrase "A is an integer type". -/
def is_integer_type (t : LoType) : Prop :=
  t = .I8 ∨ t = .U8 ∨ t = .I16 ∨ t = .U16 ∨
  t = .I32 ∨ t = .U32 ∨ t = .I64 ∨ t = .U64

/-- Following the claim wording (for comparison with parse_cast): the
cast `E as T` succeeds iff (a) T is Bool, I8 or U8 and A is an integer
type; (b) A and T are I32/I64 related by sign extension or truncation;
(c) A and T are U32/U64 likewise; or (d) the emit_components sequences
of A and T are equal. -/
def spec_cast_allowed (sctx : StructDefs) (fuel : Nat)
    (actual_type wanted_type : LoType) : Prop :=
  ((wanted_type = .Bool ∨ wanted_type = .I8 ∨ wanted_type = .U8) ∧
      is_integer_type actual_type) ∨
  ((actual_type = .I32 ∧ wanted_type = .I64) ∨
      (actual_type = .I64 ∧ wanted_type = .I32)) ∨
  ((actual_type = .U32 ∧ wanted_type = .U64) ∨
      (actual_type = .U64 ∧ wanted_type = .U32)) ∨
  emit_components sctx fuel actual_type = emit_components sctx fuel wanted_type

/-- The corrected success condition: conditions (b) and (c) of the
claim are widened to all four 32-to-64 and 64-to-32 bit conversions,
mixed signedness included (the source extends with the signedness of
the operand and truncates regardless of signedness). -/
def amended_cast_allowed (sctx : StructDefs) (fuel : Nat)
    (actual_type wanted_type : LoType) : Prop :=
  ((wanted_type = .Bool ∨ wanted_type = .I8 ∨ wanted_type = .U8) ∧
      is_integer_type actual_type) ∨
  ((actual_type = .I32 ∨ actual_type = .U32) ∧
      (wanted_type = .I64 ∨ wanted_type = .U64)) ∨
  ((actual_type = .I64 ∨ actual_type = .U64) ∧
      (wanted_type = .I32 ∨ wanted_type = .U32)) ∨
  emit_components sctx fuel actual_type = emit_components sctx fuel wanted_type

/-- Summation of emit_sized_component_stats over a list of types (the
field folds of the Tuple and StructInstance cases, restated as plain
recursion so that lemmas can speak about it one element at a time). -/
def stats_list (sctx : StructDefs) (fuel : Nat) : List LoType → Option EmitComponentStats
  | [] => some ⟨0, 0⟩
  | t :: ts => do
      let a ← emit_sized_component_stats sctx fuel t
      let b ← stats_list sctx fuel ts
      pure ⟨a.count + b.count, a.byte_length + b.byte_length⟩

/-- Embedding of the struct-field loop of the `struct` branch of
parse_top_level_expr (src/parser.rs): fields arrive as (name, type)
pairs (token-level type parsing is abstracted — in the source every
field type has already passed get_type_by_name, which rejects a
by-value use of the struct being defined); duplicate names are
rejected, and field_index / byte_offset accumulate the component count
and the packed byte length of the preceding fields. -/
def parse_struct_fields (sctx : StructDefs) (fuel : Nat) (struct_name : String)
    (seen : List String) (field_index byte_offset : Nat) :
    List (String × LoType) → Except String (List StructField)
  | [] => .ok []
  | (field_name, field_type) :: rest =>
      if seen.contains field_name then
        .error ("Found duplicate struct field name: " ++ field_name ++
          " of struct " ++ struct_name)
      else
        match emit_sized_component_stats sctx fuel field_type with
        | none => .error "unsupported struct field type"
        | some stats =>
            match parse_struct_fields sctx fuel struct_name (field_name :: seen)
                (field_index + stats.count) (byte_offset + stats.byte_length) rest with
            | .error e => .error e
            | .ok fs => .ok (⟨field_name, field_type, field_index, byte_offset⟩ :: fs)

/-- The byte/component statistics of one recorded struct field. -/
def field_stats (sctx : StructDefs) (fuel : Nat) (f : StructField) :
    EmitComponentStats :=
  (emit_sized_component_stats sctx fuel f.value_type).getD ⟨0, 0⟩

/-- Sum of the component counts of a list of fields. -/
def fields_count_sum (sctx : StructDefs) (fuel : Nat) (fs : List StructField) : Nat :=
  (fs.map (fun f => (field_stats sctx fuel f).count)).sum

/-- Sum of the packed byte lengths of a list of fields. -/
def fields_byte_sum (sctx : StructDefs) (fuel : Nat) (fs : List StructField) : Nat :=
  (fs.map (fun f => (field_stats sctx fuel f).byte_length)).sum

/-- C8: parse_file is idempotent per path — when the resolved path is
already a key of included_modules, it returns Ok with no file index,
reads nothing (the read callback is arbitrary, unused) and leaves the
module context untouched. -/
theorem parse_file_already_included {ρ : Type}
    (resolve : String → String → String)
    (read_file : String → Except Nat (List Nat))
    (parse_contents : ModuleCtx ρ → String → List Nat → Except String (Nat × ModuleCtx ρ))
    (ctx : ModuleCtx ρ) (file_path loc_file_name : String)
    (h : (ctx.included_modules.lookup (resolve file_path loc_file_name)).isSome = true) :
    parse_file resolve read_file parse_contents ctx file_path loc_file_name =
      .ok (none, ctx) := by
  simp [parse_file, h]

theorem parse_file_already_included_witness :
    (((⟨[("main.lo", 0)], 0⟩ : ModuleCtx Nat).included_modules.lookup "main.lo").isSome = true) ∧
    parse_file (fun p _ => p) (fun _ => .error 1) (fun c _ _ => .ok (0, c))
      (⟨[("main.lo", 0)], 0⟩ : ModuleCtx Nat) "main.lo" "<internal>" =
        .ok (none, ⟨[("main.lo", 0)], 0⟩) :=
  ⟨by rfl,
   parse_file_already_included (fun p _ => p) (fun _ => .error 1) (fun c _ _ => .ok (0, c))
     ⟨[("main.lo", 0)], 0⟩ "main.lo" "<internal>" (by rfl)⟩

/-- C4: build_const_str_instr is idempotent on the module context — a
string already present in the pool is returned at its recorded offset
with no state change, and a second call with the same string returns
exactly the result (instruction and state) of the first. -/
theorem build_const_str_pool_idempotent (st : MState) (value : List Nat) :
    (∀ p, st.string_pool.lookup value = some p →
      build_const_str_instr st value =
        ((LoInstr.MultiValueEmit [.U32Const p, .U32Const value.length]).casted
          (.StructInstance "str"), st)) ∧
    build_const_str_instr (build_const_str_instr st value).2 value =
      build_const_str_instr st value := by
  constructor
  · intro p hp
    simp [build_const_str_instr, hp]
  · cases h : st.string_pool.lookup value with
    | some p => simp [build_const_str_instr, h]
    | none => simp [build_const_str_instr, h, List.lookup]

theorem build_const_str_pool_idempotent_witness :
    build_const_str_instr ⟨[([104, 105], 7)], 9, []⟩ [104, 105] =
      ((LoInstr.MultiValueEmit [.U32Const 7, .U32Const 2]).casted (.StructInstance "str"),
        ⟨[([104, 105], 7)], 9, []⟩) :=
  (build_const_str_pool_idempotent ⟨[([104, 105], 7)], 9, []⟩ [104, 105]).1 7 (by rfl)

/-- C3 fails as stated: one explicit `memory @0 = "ab"` segment leaves
the data_size cursor at 0 while two bytes of data segments exist. -/
theorem data_size_counterexample :
    (apply_data_ops init_mstate [.memSeg 0 [97, 98]]).data_size ≠
      total_data_bytes (apply_data_ops init_mstate [.memSeg 0 [97, 98]]) := by
  decide

theorem apply_data_ops_accounting (ops : List DataOp) :
    ∀ st : MState,
      total_data_bytes (apply_data_ops st ops) + st.data_size =
        total_data_bytes st + (apply_data_ops st ops).data_size + mem_seg_bytes ops := by
  induction ops with
  | nil => intro st; simp [apply_data_ops, mem_seg_bytes]
  | cons op rest ih =>
      intro st
      have hfold : apply_data_ops st (op :: rest) = apply_data_ops (apply_data_op st op) rest := rfl
      have hrest := ih (apply_data_op st op)
      rw [hfold]
      cases op with
      | constStr v =>
          have hmem : mem_seg_bytes (DataOp.constStr v :: rest) = mem_seg_bytes rest := by
            simp [mem_seg_bytes]
          cases h : st.string_pool.lookup v with
          | some p =>
              have hop : apply_data_op st (.constStr v) = st := by
                simp [apply_data_op, build_const_str_instr, h]
              rw [hop] at hrest ⊢
              omega
          | none =>
              have hds : (apply_data_op st (.constStr v)).data_size = st.data_size + v.length := by
                simp [apply_data_op, build_const_str_instr, h]
              have htot : total_data_bytes (apply_data_op st (.constStr v)) =
                  total_data_bytes st + v.length := by
                simp [apply_data_op, build_const_str_instr, h, total_data_bytes]
              omega
      | memSeg off bytes =>
          have hmem : mem_seg_bytes (DataOp.memSeg off bytes :: rest) =
              bytes.length + mem_seg_bytes rest := by
            simp [mem_seg_bytes]
          have hds : (apply_data_op st (.memSeg off bytes)).data_size = st.data_size := by
            simp [apply_data_op, parse_memory_data]
          have htot : total_data_bytes (apply_data_op st (.memSeg off bytes)) =
              total_data_bytes st + bytes.length := by
            simp [apply_data_op, parse_memory_data, total_data_bytes]
          omega

/-- C3 amended: over any compilation history starting from the empty
context, the total byte length of all data segments equals data_size
plus the bytes contributed by explicit `memory @OFFSET = "BYTES"`
segments — so data_size accounts exactly for the string-literal
segments, while explicit memory segments are appended without
advancing it. -/
theorem data_size_tracks_string_segments (ops : List DataOp) :
    total_data_bytes (apply_data_ops init_mstate ops) =
      (apply_data_ops init_mstate ops).data_size + mem_seg_bytes ops := by
  have h := apply_data_ops_accounting ops init_mstate
  have h0 : total_data_bytes init_mstate = 0 := by decide
  have h1 : init_mstate.data_size = 0 := by decide
  omega

theorem break_label_app (pre : List BlockType)
    (h : ∀ b ∈ pre, b ≠ BlockType.Loop ∧ b ≠ BlockType.ForLoop) :
    ∀ acc rest,
      parse_break_label (pre ++ .Loop :: rest) acc = some (acc + pre.length) ∧
      parse_break_label (pre ++ .ForLoop :: rest) acc = some (acc + pre.length + 1) := by
  induction pre with
  | nil => intro acc rest; simp [parse_break_label]
  | cons b pre ih =>
      intro acc rest
      have hb := h b (by simp)
      have hpre : ∀ x ∈ pre, x ≠ BlockType.Loop ∧ x ≠ BlockType.ForLoop :=
        fun x hx => h x (by simp [hx])
      have harith : acc + (b :: pre).length = (acc + 1) + pre.length := by
        simp; omega
      cases b with
      | Loop => exact absurd rfl hb.1
      | ForLoop => exact absurd rfl hb.2
      | Block =>
          have hih := ih hpre (acc + 1) rest
          constructor
          · rw [show ((BlockType.Block :: pre) ++ BlockType.Loop :: rest) =
                BlockType.Block :: (pre ++ BlockType.Loop :: rest) from rfl]
            rw [show parse_break_label (BlockType.Block :: (pre ++ BlockType.Loop :: rest)) acc =
                parse_break_label (pre ++ BlockType.Loop :: rest) (acc + 1) from rfl]
            rw [hih.1, harith]
          · rw [show ((BlockType.Block :: pre) ++ BlockType.ForLoop :: rest) =
                BlockType.Block :: (pre ++ BlockType.ForLoop :: rest) from rfl]
            rw [show parse_break_label (BlockType.Block :: (pre ++ BlockType.ForLoop :: rest)) acc =
                parse_break_label (pre ++ BlockType.ForLoop :: rest) (acc + 1) from rfl]
            rw [hih.2, harith]
      | Function =>
          have hih := ih hpre (acc + 1) rest
          constructor
          · rw [show ((BlockType.Function :: pre) ++ BlockType.Loop :: rest) =
                BlockType.Function :: (pre ++ BlockType.Loop :: rest) from rfl]
            rw [show parse_break_label (BlockType.Function :: (pre ++ BlockType.Loop :: rest)) acc =
                parse_break_label (pre ++ BlockType.Loop :: rest) (acc + 1) from rfl]
            rw [hih.1, harith]
          · rw [show ((BlockType.Function :: pre) ++ BlockType.ForLoop :: rest) =
                BlockType.Function :: (pre ++ BlockType.ForLoop :: rest) from rfl]
            rw [show parse_break_label (BlockType.Function :: (pre ++ BlockType.ForLoop :: rest)) acc =
                parse_break_label (pre ++ BlockType.ForLoop :: rest) (acc + 1) from rfl]
            rw [hih.2, harith]

theorem continue_label_app (pre : List BlockType)
    (h : ∀ b ∈ pre, b ≠ BlockType.Loop ∧ b ≠ BlockType.ForLoop) :
    ∀ acc rest,
      parse_continue_label (pre ++ .Loop :: rest) acc = some (acc + pre.length) ∧
      parse_continue_label (pre ++ .ForLoop :: rest) acc = some (acc + pre.length) := by
  induction pre with
  | nil => intro acc rest; simp [parse_continue_label]
  | cons b pre ih =>
      intro acc rest
      have hb := h b (by simp)
      have hpre : ∀ x ∈ pre, x ≠ BlockType.Loop ∧ x ≠ BlockType.ForLoop :=
        fun x hx => h x (by simp [hx])
      have harith : acc + (b :: pre).length = (acc + 1) + pre.length := by
        simp; omega
      cases b with
      | Loop => exact absurd rfl hb.1
      | ForLoop => exact absurd rfl hb.2
      | Block =>
          have hih := ih hpre (acc + 1) rest
          refine ⟨?_, ?_⟩
          · rw [show parse_continue_label ((BlockType.Block :: pre) ++ BlockType.Loop :: rest) acc =
                parse_continue_label (pre ++ BlockType.Loop :: rest) (acc + 1) from rfl]
            rw [hih.1, harith]
          · rw [show parse_continue_label ((BlockType.Block :: pre) ++ BlockType.ForLoop :: rest) acc =
                parse_continue_label (pre ++ BlockType.ForLoop :: rest) (acc + 1) from rfl]
            rw [hih.2, harith]
      | Function =>
          have hih := ih hpre (acc + 1) rest
          refine ⟨?_, ?_⟩
          · rw [show parse_continue_label ((BlockType.Function :: pre) ++ BlockType.Loop :: rest) acc =
                parse_continue_label (pre ++ BlockType.Loop :: rest) (acc + 1) from rfl]
            rw [hih.1, harith]
          · rw [show parse_continue_label ((BlockType.Function :: pre) ++ BlockType.ForLoop :: rest) acc =
                parse_continue_label (pre ++ BlockType.ForLoop :: rest) (acc + 1) from rfl]
            rw [hih.2, harith]

/-- C5: a loop compiles to a WebAssembly loop (with implicit continue)
wrapped in a block; with `pre` the chain of enclosing non-loop blocks
below the nearest loop, break branches to label 1 plus one per
intervening block (2 for a for-loop), and continue branches to label 0
plus one per intervening block. -/
theorem loop_break_continue_labels (body : List LoInstr) (pre rest : List BlockType)
    (h : ∀ b ∈ pre, b ≠ BlockType.Loop ∧ b ≠ BlockType.ForLoop) :
    parse_loop_expr body = .Block .Void [.Loop .Void (body ++ [.Branch 0])] ∧
    parse_break (pre ++ .Loop :: rest) = some (.Branch (1 + pre.length)) ∧
    parse_break (pre ++ .ForLoop :: rest) = some (.Branch (2 + pre.length)) ∧
    parse_continue (pre ++ .Loop :: rest) = some (.Branch pre.length) ∧
    parse_continue (pre ++ .ForLoop :: rest) = some (.Branch pre.length) := by
  have hbr := break_label_app pre h 1 rest
  have hco := continue_label_app pre h 0 rest
  refine ⟨rfl, ?_, ?_, ?_, ?_⟩
  · rw [parse_break, hbr.1]; simp [Nat.add_comm]
  · rw [parse_break, hbr.2]; simp; omega
  · rw [parse_continue, hco.1]; simp
  · rw [parse_continue, hco.2]; simp

theorem loop_break_continue_labels_witness :
    (∀ b ∈ [BlockType.Block], b ≠ BlockType.Loop ∧ b ≠ BlockType.ForLoop) ∧
    parse_break [.Block, .Loop] = some (.Branch 2) ∧
    parse_continue [.Block, .ForLoop] = some (.Branch 1) :=
  ⟨by decide,
   (loop_break_continue_labels [] [.Block] [] (by decide)).2.1,
   (loop_break_continue_labels [] [.Block] [] (by decide)).2.2.2.2⟩

/-- C1: `throw` raises a type error whenever the declared output is
not a Result type; with output `Result ok err` (and no pending
defers), `throw E` lowers to a Return of the pair (default of ok, E)
and `return E` lowers to a Return of the pair (E, default of err). -/
theorem throw_return_result_pairs (okT errT : LoType) (value : LoInstr) :
    (∀ output defers valueType, (∀ o e, output ≠ LoType.Result o e) →
      ∃ msg, parse_throw output defers value valueType = .error msg) ∧
    parse_throw (.Result okT errT) [] value errT =
      .ok (.Return (.MultiValueEmit [get_default_value okT, value])) ∧
    parse_return (.Result okT errT) [] value okT =
      .ok (.Return (.MultiValueEmit [value, get_default_value errT])) := by
  refine ⟨?_, ?_, ?_⟩
  · intro output defers valueType hno
    cases output
    case Result o e => exact absurd rfl (hno o e)
    all_goals exact ⟨_, rfl⟩
  · simp [parse_throw, get_deferred]
  · simp [parse_return, get_deferred]

theorem throw_return_result_pairs_witness :
    (∃ msg, parse_throw .Void [] (.U32Const 1) .I32 = .error msg) ∧
    parse_throw (.Result .Void .I32) [] (.U32Const 1) .I32 =
      .ok (.Return (.MultiValueEmit [get_default_value .Void, .U32Const 1])) :=
  ⟨(throw_return_result_pairs .Void .I32 (.U32Const 1)).1 .Void [] .I32
      (fun _ _ h => LoType.noConfusion h),
   (throw_return_result_pairs .Void .I32 (.U32Const 1)).2.1⟩

/-- C2: a pending body whose block has neither a terminating return
nor a Never-typed expression (and no defers) is accepted unchanged for
a Void output, patched with the default error value for a
`Result(Void, E)` output, and rejected for a Never output or any
other output (missing return expression). -/
theorem finalize_fallthrough (output : LoType) (exprs : List LoInstr) :
    (output = .Void →
      finalize_fn_body output ⟨exprs, false, false⟩ [] = .ok exprs) ∧
    (∀ errT, output = .Result .Void errT →
      finalize_fn_body output ⟨exprs, false, false⟩ [] =
        .ok (exprs ++ [get_default_value errT])) ∧
    (output = .Never →
      finalize_fn_body output ⟨exprs, false, false⟩ [] =
        .error "This function terminates but is marked as `never`") ∧
    (output ≠ .Void → output ≠ .Never → (∀ errT, output ≠ .Result .Void errT) →
      finalize_fn_body output ⟨exprs, false, false⟩ [] =
        .error "Missing return expression") := by
  refine ⟨?_, ?_, ?_, ?_⟩
  · rintro rfl; simp [finalize_fn_body, get_deferred]
  · rintro errT rfl; simp [finalize_fn_body, get_deferred]
  · rintro rfl; simp [finalize_fn_body, get_deferred]
  · intro h1 h2 h3
    cases output
    case Void => exact absurd rfl h1
    case Never => exact absurd rfl h2
    case Result okT errT =>
      have hok : okT ≠ .Void := fun he => h3 errT (by rw [he])
      simp [finalize_fn_body, get_deferred, hok]
    all_goals simp [finalize_fn_body, get_deferred]

theorem finalize_fallthrough_witness :
    finalize_fn_body .Void ⟨[], false, false⟩ [] = .ok [] ∧
    finalize_fn_body (.Result .Void .I32) ⟨[], false, false⟩ [] =
      .ok ([] ++ [get_default_value .I32]) ∧
    finalize_fn_body .Never ⟨[], false, false⟩ [] =
      .error "This function terminates but is marked as `never`" ∧
    finalize_fn_body .I32 ⟨[], false, false⟩ [] = .error "Missing return expression" :=
  ⟨(finalize_fallthrough .Void []).1 rfl,
   (finalize_fallthrough (.Result .Void .I32) []).2.1 .I32 rfl,
   (finalize_fallthrough .Never []).2.2.1 rfl,
   (finalize_fallthrough .I32 []).2.2.2 (fun h => LoType.noConfusion h)
     (fun h => LoType.noConfusion h) (fun _ h => LoType.noConfusion h)⟩

/-- C9: once the block accumulator holds a non-void resolved type, any
further expression whose type is neither Void nor Never makes
parse_block_contents fail — with the "Multiple non-void expressions"
message whenever that expression even matches the block expected
type. -/
theorem block_multiple_non_void (expected resolved : LoType) (contents : BlockContents)
    (expr : LoInstr) (expr_type : LoType) (rest : List (LoInstr × LoType))
    (hres : resolved ≠ .Void) (ht1 : expr_type ≠ .Void) (ht2 : expr_type ≠ .Never) :
    ∃ msg, parse_block_exprs expected ((expr, expr_type) :: rest) resolved contents =
        .error msg ∧
      (expr_type = expected →
        msg = "Multiple non-void expressions in the block are not supported") := by
  by_cases heq : expr_type = expected
  · subst heq
    exact ⟨"Multiple non-void expressions in the block are not supported",
      by simp [parse_block_exprs, ht1, ht2, hres], fun _ => rfl⟩
  · exact ⟨"Expression resolved to a type other than the block expected",
      by simp [parse_block_exprs, ht1, ht2, heq], fun h => absurd h heq⟩

theorem block_multiple_non_void_witness :
    ∃ msg, parse_block_exprs .I32 [(.U32Const 2, .I32)] .I32 ⟨[.U32Const 1], false, false⟩ =
        .error msg ∧
      (LoType.I32 = LoType.I32 →
        msg = "Multiple non-void expressions in the block are not supported") :=
  block_multiple_non_void .I32 .I32 ⟨[.U32Const 1], false, false⟩ (.U32Const 2) .I32 []
    (by decide) (by decide) (by decide)

/-- C10 fails as stated: with a global named `_` in scope, a
`let _ = EXPR` inside a function body is accepted — the wildcard
branch drops the value before the globals collision check runs. -/
theorem let_shadow_counterexample :
    (([("_", ⟨0, true, .U32, .U32Const 0⟩)] : List (String × GlobalDef)).lookup "_").isSome
        = true ∧
    parse_let [] 1 [("_", ⟨0, true, .U32, .U32Const 0⟩)] ⟨[]⟩ ⟨0, []⟩ "_"
        (.U32Const 7) .U32 =
      .ok (.Drop (.U32Const 7) 1, ⟨[]⟩, ⟨0, []⟩) :=
  ⟨rfl, rfl⟩

/-- C10 amended: for any name other than the wildcard `_`, a `let`
whose name is an existing global raises the collision error — for
every function state, so no local slot is ever allocated for it; a
named local therefore never shadows a global. -/
theorem let_global_collision (sctx : StructDefs) (fuel : Nat)
    (globals : List (String × GlobalDef)) (blk : BlockScope) (fn_state : FnCtxState)
    (local_name : String) (value : LoInstr) (value_type : LoType)
    (hn : local_name ≠ "_") (hg : (globals.lookup local_name).isSome = true) :
    parse_let sctx fuel globals blk fn_state local_name value value_type =
      .error ("Local name collides with global: " ++ local_name) := by
  simp [parse_let, hn, hg]

theorem let_global_collision_witness :
    parse_let [] 1 [("g", ⟨0, true, .U32, .U32Const 0⟩)] ⟨[]⟩ ⟨0, []⟩ "g"
        (.U32Const 7) .U32 =
      .error ("Local name collides with global: " ++ "g") :=
  let_global_collision [] 1 [("g", ⟨0, true, .U32, .U32Const 0⟩)] ⟨[]⟩ ⟨0, []⟩ "g"
    (.U32Const 7) .U32 (by decide) (by rfl)

theorem emit_components_small (sctx : StructDefs) (fuel : Nat) (t u : LoType)
    (ht : t = .Bool ∨ t = .I8 ∨ t = .U8 ∨ t = .I16 ∨ t = .U16 ∨ t = .I32 ∨ t = .U32)
    (hu : u = .Bool ∨ u = .I8 ∨ u = .U8 ∨ u = .I16 ∨ u = .U16 ∨ u = .I32 ∨ u = .U32) :
    emit_components sctx fuel t = emit_components sctx fuel u := by
  cases fuel with
  | zero => rfl
  | succ n =>
      rcases ht with rfl | rfl | rfl | rfl | rfl | rfl | rfl <;>
        rcases hu with rfl | rfl | rfl | rfl | rfl | rfl | rfl <;> rfl

/-- C6 fails as stated: `u32 as i64` compiles to an unsigned extension
although none of the claim conditions (a) to (d) allows the pair
(U32, I64). -/
theorem cast_counterexample :
    except_ok (parse_cast [] 1 .NoInstr .U32 .I64) = true ∧
    ¬ spec_cast_allowed [] 1 .U32 .I64 := by
  constructor
  · rfl
  · unfold spec_cast_allowed is_integer_type
    decide

set_option maxHeartbeats 1000000 in
/-- C6 amended: `E as T` succeeds exactly when (a) T is Bool, I8 or U8
and A is an integer type, (b) A is a 32-bit and T a 64-bit integer
type or vice versa — with mixed signedness permitted, the extension
taking the signedness of A — or (d) the emit_components sequences of A
and T agree. -/
theorem cast_success_condition (sctx : StructDefs) (fuel : Nat) (primary : LoInstr)
    (actual_type wanted_type : LoType) :
    except_ok (parse_cast sctx fuel primary actual_type wanted_type) = true ↔
      amended_cast_allowed sctx fuel actual_type wanted_type := by
  unfold parse_cast amended_cast_allowed
  split_ifs with h1 h2 h3 h4 h5 h6 h7 h8
  · simp only [except_ok, true_iff]
    exact Or.inl ⟨h1.1, by rcases h1.2 with rfl | rfl | rfl | rfl <;>
      simp [is_integer_type]⟩
  · simp only [except_ok, true_iff]
    exact Or.inr (Or.inl ⟨Or.inl h2.2, Or.inl h2.1⟩)
  · simp only [except_ok, true_iff]
    exact Or.inr (Or.inl ⟨Or.inr h3.2, Or.inl h3.1⟩)
  · simp only [except_ok, true_iff]
    exact Or.inr (Or.inl ⟨Or.inl h4.2, Or.inr h4.1⟩)
  · simp only [except_ok, true_iff]
    exact Or.inr (Or.inl ⟨Or.inr h5.2, Or.inr h5.1⟩)
  · simp only [except_ok, true_iff]
    exact Or.inr (Or.inr (Or.inl ⟨h6.2, Or.inl h6.1⟩))
  · simp only [except_ok, true_iff]
    exact Or.inr (Or.inr (Or.inl ⟨h7.2, Or.inr h7.1⟩))
  · simp only [except_ok, true_iff]
    exact Or.inr (Or.inr (Or.inr h8))
  · simp only [except_ok, Bool.false_eq_true, false_iff]
    intro hr
    rcases hr with ⟨hw, hint⟩ | ⟨ha, hw⟩ | ⟨ha, hw⟩ | hd
    · have hw7 : wanted_type = .Bool ∨ wanted_type = .I8 ∨ wanted_type = .U8 ∨
          wanted_type = .I16 ∨ wanted_type = .U16 ∨ wanted_type = .I32 ∨
          wanted_type = .U32 := by
        rcases hw with rfl | rfl | rfl
        · exact Or.inl rfl
        · exact Or.inr (Or.inl rfl)
        · exact Or.inr (Or.inr (Or.inl rfl))
      unfold is_integer_type at hint
      rcases hint with rfl | rfl | rfl | rfl | rfl | rfl | rfl | rfl
      · exact h8 (emit_components_small sctx fuel _ _ (Or.inr (Or.inl rfl)) hw7)
      · exact h8 (emit_components_small sctx fuel _ _ (Or.inr (Or.inr (Or.inl rfl))) hw7)
      · exact h8 (emit_components_small sctx fuel _ _
          (Or.inr (Or.inr (Or.inr (Or.inl rfl)))) hw7)
      · exact h8 (emit_components_small sctx fuel _ _
          (Or.inr (Or.inr (Or.inr (Or.inr (Or.inl rfl))))) hw7)
      · exact h1 ⟨hw, Or.inl rfl⟩
      · exact h1 ⟨hw, Or.inr (Or.inl rfl)⟩
      · exact h1 ⟨hw, Or.inr (Or.inr (Or.inl rfl))⟩
      · exact h1 ⟨hw, Or.inr (Or.inr (Or.inr rfl))⟩
    · rcases ha with rfl | rfl <;> rcases hw with rfl | rfl
      · exact h2 ⟨rfl, rfl⟩
      · exact h4 ⟨rfl, rfl⟩
      · exact h3 ⟨rfl, rfl⟩
      · exact h5 ⟨rfl, rfl⟩
    · rcases ha with rfl | rfl <;> rcases hw with rfl | rfl
      · exact h6 ⟨rfl, Or.inl rfl⟩
      · exact h7 ⟨rfl, Or.inl rfl⟩
      · exact h6 ⟨rfl, Or.inr rfl⟩
      · exact h7 ⟨rfl, Or.inr rfl⟩
    · exact h8 hd

theorem stats_foldr_eq_stats_list (sctx : StructDefs) (fuel : Nat) :
    ∀ items : List LoType,
      items.foldr
        (fun t' acc => do
          let a ← emit_sized_component_stats sctx fuel t'
          let b ← acc
          pure (⟨a.count + b.count, a.byte_length + b.byte_length⟩ : EmitComponentStats))
        (some ⟨0, 0⟩) = stats_list sctx fuel items := by
  intro items
  induction items with
  | nil => rfl
  | cons t ts ih => rw [List.foldr_cons, ih]; rfl

theorem stats_of_tuple (sctx : StructDefs) (fuel : Nat) (items : List LoType) :
    emit_sized_component_stats sctx (fuel + 1) (.Tuple items) =
      stats_list sctx fuel items := by
  rw [show emit_sized_component_stats sctx (fuel + 1) (.Tuple items) =
      items.foldr
        (fun t' acc => do
          let a ← emit_sized_component_stats sctx fuel t'
          let b ← acc
          pure (⟨a.count + b.count, a.byte_length + b.byte_length⟩ : EmitComponentStats))
        (some ⟨0, 0⟩) from rfl]
  exact stats_foldr_eq_stats_list sctx fuel items

theorem stats_of_struct (sctx : StructDefs) (fuel : Nat) (name : String)
    (sd : StructDef) (h : sctx.lookup name = some sd) :
    emit_sized_component_stats sctx (fuel + 1) (.StructInstance name) =
      stats_list sctx fuel (sd.fields.map (fun f => f.value_type)) := by
  rw [show emit_sized_component_stats sctx (fuel + 1) (.StructInstance name) =
      (match sctx.lookup name with
        | none => none
        | some sd =>
            (sd.fields.map (fun f => f.value_type)).foldr
              (fun t' acc => do
                let a ← emit_sized_component_stats sctx fuel t'
                let b ← acc
                pure (⟨a.count + b.count, a.byte_length + b.byte_length⟩ :
                  EmitComponentStats))
              (some ⟨0, 0⟩)) from rfl]
  rw [h]
  exact stats_foldr_eq_stats_list sctx fuel _

theorem stats_fuel_zero (sctx : StructDefs) (t : LoType) :
    emit_sized_component_stats sctx 0 t = none := rfl

theorem stats_of_result (sctx : StructDefs) (fuel : Nat) (okT errT : LoType) :
    emit_sized_component_stats sctx (fuel + 1) (.Result okT errT) = (do
      let a ← emit_sized_component_stats sctx fuel okT
      let b ← emit_sized_component_stats sctx fuel errT
      pure ⟨a.count + b.count, a.byte_length + b.byte_length⟩) := rfl

theorem stats_of_struct_none (sctx : StructDefs) (fuel : Nat) (name : String)
    (h : sctx.lookup name = none) :
    emit_sized_component_stats sctx (fuel + 1) (.StructInstance name) = none := by
  rw [show emit_sized_component_stats sctx (fuel + 1) (.StructInstance name) =
      (match sctx.lookup name with
        | none => none
        | some sd =>
            (sd.fields.map (fun f => f.value_type)).foldr
              (fun t' acc => do
                let a ← emit_sized_component_stats sctx fuel t'
                let b ← acc
                pure (⟨a.count + b.count, a.byte_length + b.byte_length⟩ :
                  EmitComponentStats))
              (some ⟨0, 0⟩)) from rfl]
  rw [h]

theorem stats_of_macro_arg (sctx : StructDefs) (fuel : Nat) (name : String) :
    emit_sized_component_stats sctx (fuel + 1) (.MacroTypeArg name) = none := rfl

theorem stats_extend (nm : String) (d : StructDef) (sctx : StructDefs)
    (hnm : sctx.lookup nm = none) :
    ∀ (fuel : Nat) (t : LoType) (s : EmitComponentStats),
      emit_sized_component_stats sctx fuel t = some s →
      emit_sized_component_stats ((nm, d) :: sctx) fuel t = some s := by
  intro fuel
  induction fuel with
  | zero =>
      intro t s h
      rw [stats_fuel_zero] at h
      exact absurd h (by simp)
  | succ n ih =>
      have hlist : ∀ (ts : List LoType) (s : EmitComponentStats),
          stats_list sctx n ts = some s →
          stats_list ((nm, d) :: sctx) n ts = some s := by
        intro ts
        induction ts with
        | nil => intro s h; simpa [stats_list] using h
        | cons t ts iht =>
            intro s h
            rw [stats_list] at h ⊢
            cases he : emit_sized_component_stats sctx n t with
            | none => rw [he] at h; simp at h
            | some a =>
                rw [he] at h
                cases hl : stats_list sctx n ts with
                | none => rw [hl] at h; simp at h
                | some b =>
                    rw [hl] at h
                    rw [ih t a he, iht b hl]
                    exact h
      intro t s h
      cases t
      case Tuple items =>
        rw [stats_of_tuple] at h ⊢
        exact hlist items s h
      case Result okT errT =>
        rw [stats_of_result] at h ⊢
        cases he1 : emit_sized_component_stats sctx n okT with
        | none => rw [he1] at h; simp at h
        | some a =>
            rw [he1] at h
            cases he2 : emit_sized_component_stats sctx n errT with
            | none => rw [he2] at h; simp at h
            | some b =>
                rw [he2] at h
                rw [ih okT a he1, ih errT b he2]
                exact h
      case StructInstance name =>
        by_cases hn : name = nm
        · subst hn
          rw [stats_of_struct_none sctx n name hnm] at h
          exact absurd h (by simp)
        · cases hl : sctx.lookup name with
          | none => rw [stats_of_struct_none sctx n name hl] at h; simp at h
          | some sd =>
              rw [stats_of_struct sctx n name sd hl] at h
              have hl' : ((nm, d) :: sctx).lookup name = some sd := by
                rw [List.lookup]
                have : (name == nm) = false := by
                  simp [hn]
                rw [this]
                exact hl
              rw [stats_of_struct ((nm, d) :: sctx) n name sd hl']
              exact hlist _ s h
      case MacroTypeArg name =>
        rw [stats_of_macro_arg] at h
        exact absurd h (by simp)
      all_goals exact h

theorem fields_count_sum_cons (sctx : StructDefs) (fuel : Nat)
    (f : StructField) (fs : List StructField) :
    fields_count_sum sctx fuel (f :: fs) =
      (field_stats sctx fuel f).count + fields_count_sum sctx fuel fs := by
  simp [fields_count_sum]

theorem fields_byte_sum_cons (sctx : StructDefs) (fuel : Nat)
    (f : StructField) (fs : List StructField) :
    fields_byte_sum sctx fuel (f :: fs) =
      (field_stats sctx fuel f).byte_length + fields_byte_sum sctx fuel fs := by
  simp [fields_byte_sum]

theorem parse_struct_fields_spec (sctx : StructDefs) (fuel : Nat) (struct_name : String) :
    ∀ (flds : List (String × LoType)) (seen : List String) (fi bo : Nat)
      (fs : List StructField),
      parse_struct_fields sctx fuel struct_name seen fi bo flds = .ok fs →
      (∀ f ∈ fs, emit_sized_component_stats sctx fuel f.value_type =
          some (field_stats sctx fuel f)) ∧
      (∀ i (h : i < fs.length),
        (fs.get ⟨i, h⟩).field_index = fi + fields_count_sum sctx fuel (fs.take i) ∧
        (fs.get ⟨i, h⟩).byte_offset = bo + fields_byte_sum sctx fuel (fs.take i)) := by
  intro flds
  induction flds with
  | nil =>
      intro seen fi bo fs h
      rw [parse_struct_fields] at h
      injection h with h
      subst h
      constructor
      · intro f hf; simp at hf
      · intro i hi; simp at hi
  | cons p rest ih =>
      obtain ⟨fname, ftype⟩ := p
      intro seen fi bo fs h
      rw [parse_struct_fields] at h
      by_cases hdup : seen.contains fname
      · rw [if_pos hdup] at h
        exact absurd h (by simp)
      · rw [if_neg hdup] at h
        cases hst : emit_sized_component_stats sctx fuel ftype with
        | none => simp only [hst] at h; exact absurd h (by simp)
        | some stats =>
            simp only [hst] at h
            cases hrec : parse_struct_fields sctx fuel struct_name (fname :: seen)
                (fi + stats.count) (bo + stats.byte_length) rest with
            | error e => simp only [hrec] at h; exact absurd h (by simp)
            | ok fs' =>
                simp only [hrec, Except.ok.injEq] at h
                subst h
                obtain ⟨ihst, ihidx⟩ := ih (fname :: seen) (fi + stats.count)
                  (bo + stats.byte_length) fs' hrec
                have hfs : field_stats sctx fuel ⟨fname, ftype, fi, bo⟩ = stats := by
                  simp [field_stats, hst]
                constructor
                · intro f hf
                  rcases List.mem_cons.mp hf with rfl | hf'
                  · rw [hfs]
                    exact hst
                  · exact ihst f hf'
                · intro i hi
                  cases i with
                  | zero =>
                      constructor
                      · simp [fields_count_sum]
                      · simp [fields_byte_sum]
                  | succ j =>
                      have hj : j < fs'.length := by simpa using hi
                      have hrecidx := ihidx j hj
                      constructor
                      · show (fs'.get ⟨j, hj⟩).field_index = _
                        rw [List.take_succ_cons, fields_count_sum_cons, hfs, hrecidx.1]
                        omega
                      · show (fs'.get ⟨j, hj⟩).byte_offset = _
                        rw [List.take_succ_cons, fields_byte_sum_cons, hfs, hrecidx.2]
                        omega

theorem stats_list_of_fields (sctx' sctx : StructDefs) (fuel : Nat) :
    ∀ fs : List StructField,
      (∀ f ∈ fs, emit_sized_component_stats sctx' fuel f.value_type =
        some (field_stats sctx fuel f)) →
      stats_list sctx' fuel (fs.map (fun f => f.value_type)) =
        some ⟨fields_count_sum sctx fuel fs, fields_byte_sum sctx fuel fs⟩ := by
  intro fs
  induction fs with
  | nil => intro _; simp [stats_list, fields_count_sum, fields_byte_sum]
  | cons f fs ih =>
      intro h
      rw [List.map_cons, stats_list, h f (by simp),
        ih (fun g hg => h g (List.mem_cons_of_mem f hg)),
        fields_count_sum_cons, fields_byte_sum_cons]
      rfl

/-- C7: for a struct definition accepted by the top-level parser, each
recorded field_index and byte_offset is the prefix sum of the
component counts / packed byte lengths of the preceding fields, and —
once the finished definition is installed — the struct total byte
length (and component count) is the sum over all of its fields. -/
theorem struct_layout_prefix_sums (sctx : StructDefs) (fuel : Nat) (struct_name : String)
    (flds : List (String × LoType)) (fs : List StructField)
    (hparse : parse_struct_fields sctx fuel struct_name [] 0 0 flds = .ok fs)
    (hfresh : sctx.lookup struct_name = none) :
    (∀ i (h : i < fs.length),
      (fs.get ⟨i, h⟩).field_index = fields_count_sum sctx fuel (fs.take i) ∧
      (fs.get ⟨i, h⟩).byte_offset = fields_byte_sum sctx fuel (fs.take i)) ∧
    emit_sized_component_stats ((struct_name, ⟨fs, true⟩) :: sctx) (fuel + 1)
        (.StructInstance struct_name) =
      some ⟨fields_count_sum sctx fuel fs, fields_byte_sum sctx fuel fs⟩ := by
  obtain ⟨hst, hidx⟩ := parse_struct_fields_spec sctx fuel struct_name flds [] 0 0 fs hparse
  constructor
  · intro i h
    have := hidx i h
    simpa using this
  · have hlookup : ((struct_name, (⟨fs, true⟩ : StructDef)) :: sctx).lookup struct_name =
        some ⟨fs, true⟩ := by
      simp [List.lookup]
    rw [stats_of_struct _ fuel struct_name ⟨fs, true⟩ hlookup]
    exact stats_list_of_fields _ sctx fuel fs
      (fun f hf => stats_extend struct_name ⟨fs, true⟩ sctx hfresh fuel f.value_type _ (hst f hf))

theorem struct_layout_prefix_sums_witness :
    emit_sized_component_stats
        [("P", ⟨[⟨"x", .I32, 0, 0⟩, ⟨"y", .I64, 1, 4⟩], true⟩)] 2
        (.StructInstance "P") =
      some ⟨fields_count_sum [] 1 [⟨"x", .I32, 0, 0⟩, ⟨"y", .I64, 1, 4⟩],
        fields_byte_sum [] 1 [⟨"x", .I32, 0, 0⟩, ⟨"y", .I64, 1, 4⟩]⟩ :=
  (struct_layout_prefix_sums [] 1 "P" [("x", .I32), ("y", .I64)]
    [⟨"x", .I32, 0, 0⟩, ⟨"y", .I64, 1, 4⟩] (by rfl) (by rfl)).2
